import Mathlib

/-!
Verification of the TinyViT encoder (`model.py`) of ventiSAM-Distillation.

Tensors whose contents matter are embedded as total index functions; `view`,
`transpose` and `reshape` are the usual row-major index re-associations, and
the shape bookkeeping of the full network is embedded separately as a
shape-level semantics returning `Option` (a `none` is a runtime failure:
a failed `assert` or an impossible `view`).
-/

set_option maxRecDepth 8000

namespace VentiSAM

/-- A Token Grid `(B, L, C)` as a total index function `b l c ↦ value`. -/
abbrev Tensor3 (α : Type) := Nat → Nat → Nat → α

/-- A channels-last Spatial Tensor `(B, H, W, C)` as a total index function. -/
abbrev Tensor4 (α : Type) := Nat → Nat → Nat → Nat → α

/-- Line 264, `x.view(B, H, W, C)`: row-major split of the sequence axis of a
`(B, H*W, C)` Token Grid into the two spatial axes of width `W`. -/
def viewGrid {α : Type} (W : Nat) (x : Tensor3 α) : Tensor4 α :=
  fun b h w c => x b (h * W + w) c

/-- Line 268, `F.pad(x, (0,0,0,pad_r,0,pad_b))`: zero padding on the bottom and
right of the spatial extent `H × W`; reads outside the original extent give the
pad value `z`. -/
def padBR {α : Type} (H W : Nat) (z : α) (x : Tensor4 α) : Tensor4 α :=
  fun b h w c => if h < H ∧ w < W then x b h w c else z

/-- Lines 271-273, `x.view(B,nH,ws,nW,ws,C).transpose(2,3)
.reshape(B*nH*nW, ws*ws, C)`: window partition of a padded `(B, nH*ws, nW*ws, C)`
spatial tensor into a `(B*nH*nW, ws*ws, C)` batch of windows. -/
def windowPartition {α : Type} (nH nW ws : Nat) (x : Tensor4 α) : Tensor3 α :=
  fun wb pos c =>
    x (wb / (nH * nW))
      (((wb % (nH * nW)) / nW) * ws + pos / ws)
      (((wb % (nH * nW)) % nW) * ws + pos % ws) c

/-- Lines 275-277, `x.view(B,nH,nW,ws,ws,C).transpose(2,3).reshape(B,pH,pW,C)`:
the inverse reassembly of a `(B*nH*nW, ws*ws, C)` batch of windows into the
padded `(B, nH*ws, nW*ws, C)` spatial tensor. -/
def windowUnpartition {α : Type} (nH nW ws : Nat) (y : Tensor3 α) : Tensor4 α :=
  fun b ph pw c =>
    y (b * (nH * nW) + (ph / ws) * nW + pw / ws)
      ((ph % ws) * ws + pw % ws) c

/-- Lines 278-280, `x[:, :H, :W]` followed by `x.view(B, L, C)`: top-left crop
back to `H × W` and row-major flattening to a Token Grid. -/
def cropFlatten {α : Type} (W : Nat) (z : Tensor4 α) : Tensor3 α :=
  fun b l c => z b (l / W) (l % W) c

/-- Lines 262-280 of `TinyViTBlock.forward`: the general window path.  The
input `(B, H*W, C)` Token Grid is viewed as `H × W`, padded on the bottom and
right to multiples of the window size `ws` (padding is skipped when both pad
amounts are zero, mirroring `if pad_b or pad_r`), partitioned into windows,
passed through the attention map `attn`, unpartitioned, cropped back and
flattened.  `z` is the pad value (zero in the source). -/
def generalPath {α : Type} (H W ws : Nat) (z : α)
    (attn : Tensor3 α → Tensor3 α) (x : Tensor3 α) : Tensor3 α :=
  let padB := (ws - H % ws) % ws
  let padR := (ws - W % ws) % ws
  let x4 := viewGrid W x
  let xp := if padB ≠ 0 ∨ padR ≠ 0 then padBR H W z x4 else x4
  let nH := (H + padB) / ws
  let nW := (W + padR) / ws
  cropFlatten W (windowUnpartition nH nW ws (attn (windowPartition nH nW ws xp)))

/-- Line 261 of `TinyViTBlock.forward`: the fast path taken when
`H == window_size and W == window_size`, applying attention directly to the
flat Token Grid. -/
def fastPath {α : Type} (attn : Tensor3 α → Tensor3 α) (x : Tensor3 α) :
    Tensor3 α :=
  attn x

/-- The padded extent `H + (ws - H % ws) % ws` is a multiple of `ws`. -/
theorem dvd_padded_extent (ws H : Nat) (hws : 0 < ws) :
    ws ∣ H + (ws - H % ws) % ws := by
  have hq := Nat.div_add_mod H ws
  rcases Nat.eq_zero_or_pos (H % ws) with h0 | hpos
  · have hmod : (ws - H % ws) % ws = 0 := by
      rw [h0, Nat.sub_zero, Nat.mod_self]
    exact ⟨H / ws, by omega⟩
  · have hlt : ws - H % ws < ws := by omega
    have hmod : (ws - H % ws) % ws = ws - H % ws := Nat.mod_eq_of_lt hlt
    have hml : H % ws < ws := Nat.mod_lt _ hws
    have hexp : ws * (H / ws + 1) = ws * (H / ws) + ws := by ring
    exact ⟨H / ws + 1, by omega⟩

/-- Decoding a row-major merged index: the quotient part. -/
theorem div_decode (k a m : Nat) (ha : a < m) : (k * m + a) / m = k := by
  have hm : 0 < m := Nat.lt_of_le_of_lt (Nat.zero_le a) ha
  rw [Nat.mul_comm, Nat.mul_add_div hm, Nat.div_eq_of_lt ha, Nat.add_zero]

/-- Decoding a row-major merged index: the remainder part. -/
theorem mod_decode (k a m : Nat) (ha : a < m) : (k * m + a) % m = a := by
  rw [Nat.mul_comm, Nat.mul_add_mod]
  exact Nat.mod_eq_of_lt ha

/-- A row-major merged pair stays inside the merged extent. -/
theorem mul_add_lt {a b m n : Nat} (ha : a < m) (hb : b < n) :
    a * n + b < m * n := by
  have h1 : a * n + b < (a + 1) * n := by
    rw [Nat.succ_mul]
    omega
  exact Nat.lt_of_lt_of_le h1 (Nat.mul_le_mul_right n ha)

/-- Unpartitioning immediately after partitioning reads back the original
padded spatial tensor at every in-extent position. -/
theorem partition_unpartition_point {α : Type} (nH nW ws : Nat)
    (xp : Tensor4 α) (b ph pw c : Nat)
    (hws : 0 < ws) (hph : ph < nH * ws) (hpw : pw < nW * ws) :
    windowUnpartition nH nW ws (windowPartition nH nW ws xp) b ph pw c
      = xp b ph pw c := by
  unfold windowUnpartition windowPartition
  have h1 : ph / ws < nH := Nat.div_lt_of_lt_mul (by rw [Nat.mul_comm] at hph; exact hph)
  have h2 : pw / ws < nW := Nat.div_lt_of_lt_mul (by rw [Nat.mul_comm] at hpw; exact hpw)
  have h3 : ph % ws < ws := Nat.mod_lt _ hws
  have h4 : pw % ws < ws := Nat.mod_lt _ hws
  have hin : ph / ws * nW + pw / ws < nH * nW := mul_add_lt h1 h2
  have e1 : b * (nH * nW) + ph / ws * nW + pw / ws
      = b * (nH * nW) + (ph / ws * nW + pw / ws) := by ring
  rw [e1, div_decode _ _ _ hin, mod_decode _ _ _ hin,
    div_decode _ _ _ h2, mod_decode _ _ _ h2,
    div_decode _ _ _ h4, mod_decode _ _ _ h4,
    Nat.div_add_mod' ph ws, Nat.div_add_mod' pw ws]

/-- C3: for every `H`, `W` and positive window size `ws`, the general window
path of `TinyViTBlock.forward` with the attention step replaced by the
identity (pad, partition, unpartition, crop) reproduces the input Token Grid
exactly at every valid sequence position, padding cases included. -/
theorem C3_partition_roundTrip {α : Type} (H W ws : Nat) (z : α)
    (x : Tensor3 α) (b l c : Nat) (hws : 0 < ws) (hl : l < H * W) :
    generalPath H W ws z id x b l c = x b l c := by
  have hW : 0 < W := by
    rcases Nat.eq_zero_or_pos W with rfl | h
    · simp at hl
    · exact h
  have hdvdH : ws ∣ H + (ws - H % ws) % ws := dvd_padded_extent ws H hws
  have hdvdW : ws ∣ W + (ws - W % ws) % ws := dvd_padded_extent ws W hws
  have hpH : (H + (ws - H % ws) % ws) / ws * ws = H + (ws - H % ws) % ws :=
    Nat.div_mul_cancel hdvdH
  have hpW : (W + (ws - W % ws) % ws) / ws * ws = W + (ws - W % ws) % ws :=
    Nat.div_mul_cancel hdvdW
  have hh : l / W < H := Nat.div_lt_of_lt_mul (by rw [Nat.mul_comm] at hl; exact hl)
  have hw : l % W < W := Nat.mod_lt _ hW
  have hhp : l / W < (H + (ws - H % ws) % ws) / ws * ws := by
    rw [hpH]; exact Nat.lt_of_lt_of_le hh (Nat.le_add_right _ _)
  have hwp : l % W < (W + (ws - W % ws) % ws) / ws * ws := by
    rw [hpW]; exact Nat.lt_of_lt_of_le hw (Nat.le_add_right _ _)
  simp only [generalPath, cropFlatten, id]
  rw [partition_unpartition_point _ _ _ _ _ _ _ _ hws hhp hwp]
  by_cases hpad : (ws - H % ws) % ws ≠ 0 ∨ (ws - W % ws) % ws ≠ 0
  · simp only [hpad, if_true, padBR, viewGrid, hh, hw, and_self, if_pos,
      Nat.div_add_mod' l W]
  · simp only [hpad, if_false, viewGrid, Nat.div_add_mod' l W]

/-- Auxiliary to C6: with a single window (`nH = nW = 1`) and no padding, the
window partition is the identity on the Token Grid, as total index functions. -/
theorem partition_single_window {α : Type} (ws : Nat) (x : Tensor3 α) :
    windowPartition 1 1 ws (viewGrid ws x) = x := by
  funext wb pos c
  unfold windowPartition viewGrid
  simp only [Nat.mul_one, Nat.one_mul, Nat.div_one, Nat.mod_one, Nat.zero_mul,
    Nat.zero_add, Nat.div_add_mod']

/-- C6: when `H = W = ws`, the fast path of `TinyViTBlock.forward` (attention
applied directly to the flat Token Grid) agrees with the general
pad/partition/attend/unpartition/crop path forced to run on the same input
with the same attention map, at every valid index — exact equality, not just
within floating-point tolerance. -/
theorem C6_fastPath_equiv {α : Type} (ws : Nat) (z : α)
    (attn : Tensor3 α → Tensor3 α) (x : Tensor3 α) (b l c : Nat)
    (hws : 0 < ws) (hl : l < ws * ws) :
    generalPath ws ws ws z attn x b l c = fastPath attn x b l c := by
  have hpad : (ws - ws % ws) % ws = 0 := by
    rw [Nat.mod_self, Nat.sub_zero, Nat.mod_self]
  have hself : ws / ws = 1 := Nat.div_self hws
  have hdl : l / ws < ws := Nat.div_lt_of_lt_mul (by rw [Nat.mul_comm] at hl; exact hl)
  have hml : l % ws < ws := Nat.mod_lt _ hws
  simp only [generalPath, fastPath, hpad, Nat.add_zero, hself, ne_eq,
    not_true_eq_false, or_self, if_false, partition_single_window,
    cropFlatten, windowUnpartition, Nat.mul_one, Nat.one_mul]
  rw [Nat.div_eq_of_lt hdl, Nat.div_eq_of_lt hml, Nat.mod_eq_of_lt hdl,
    Nat.mod_eq_of_lt hml]
  norm_num [Nat.div_add_mod' l ws]

/-- Concrete instance of C3 at `H = W = 13`, `ws = 7` (one padded row and
column) on an explicit payload. -/
theorem C3_partition_roundTrip_witness :
    (0 : Nat) < 7 ∧ (27 : Nat) < 13 * 13 ∧
    generalPath 13 13 7 (0 : Nat) id (fun b l c => b + 2 * l + 3 * c) 1 27 2
      = (fun b l c => b + 2 * l + 3 * c : Tensor3 Nat) 1 27 2 :=
  ⟨by decide, by decide,
    C3_partition_roundTrip 13 13 7 0 _ 1 27 2 (by decide) (by decide)⟩

/-- Concrete instance of C6 at `ws = 7` with a non-identity attention map. -/
theorem C6_fastPath_equiv_witness :
    (0 : Nat) < 7 ∧ (5 : Nat) < 7 * 7 ∧
    generalPath 7 7 7 (0 : Nat)
        (fun t => fun b l c => t b l c + 1) (fun b l c => b + 2 * l + 3 * c)
        1 5 2
      = fastPath (fun t => fun b l c => t b l c + 1)
          (fun b l c => b + 2 * l + 3 * c) 1 5 2 :=
  ⟨by decide, by decide,
    C6_fastPath_equiv 7 0 _ _ 1 5 2 (by decide) (by decide)⟩

/-! ## Relative-offset table (`Attention.__init__`, lines 197-209) -/

/-- Line 197: `itertools.product(range(h), range(w))` — the grid points in
row-major order. -/
def gridPoints (h w : Nat) : List (Nat × Nat) :=
  (List.range h).flatMap (fun r => (List.range w).map (fun c => (r, c)))

/-- Lines 201-202: all `(point, point)` pairs in row-major iteration order
(`for p1 in points: for p2 in points`). -/
def allPairs (h w : Nat) : List ((Nat × Nat) × (Nat × Nat)) :=
  (gridPoints h w).flatMap (fun p1 => (gridPoints h w).map (fun p2 => (p1, p2)))

/-- Line 203: `(abs(p1[0] - p2[0]), abs(p1[1] - p2[1]))`. -/
def offsetOf (p1 p2 : Nat × Nat) : Nat × Nat :=
  (((p1.1 : Int) - (p2.1 : Int)).natAbs, ((p1.2 : Int) - (p2.2 : Int)).natAbs)

/-- Position of the first occurrence of `o` in a list (the value a Python
dict stores for key `o` when keys are only ever appended and the value written
at insertion is the dict size at that moment). -/
def posOf (o : Nat × Nat) : List (Nat × Nat) → Nat
  | [] => 0
  | k :: t => if k = o then 0 else posOf o t + 1

theorem posOf_append_of_mem {o : Nat × Nat} {l : List (Nat × Nat)}
    (t : List (Nat × Nat)) (h : o ∈ l) : posOf o (l ++ t) = posOf o l := by
  induction l with
  | nil => cases h
  | cons k r ih =>
    rw [List.cons_append, posOf, posOf]
    by_cases hk : k = o
    · rw [if_pos hk, if_pos hk]
    · rcases List.mem_cons.mp h with rfl | hr
      · exact absurd rfl hk
      · rw [if_neg hk, if_neg hk, ih hr]

theorem posOf_cons_self (o : Nat × Nat) (t : List (Nat × Nat)) :
    posOf o (o :: t) = 0 := by
  rw [posOf, if_pos rfl]

/-- Lines 204-205, one iteration.  The dict `attention_offsets` is represented
by its insertion-ordered key list; `setdefault(offset, len(attention_offsets))`
stores, for a fresh key, the current dict size — which is exactly the position
of the key in the insertion-ordered list, so the value looked up for any
present key is its `posOf` in that list.  The looked-up value is appended to
`idxs`. -/
def offsetStep (st : List (Nat × Nat) × List Nat) (o : Nat × Nat) :
    List (Nat × Nat) × List Nat :=
  let ks := if o ∈ st.1 then st.1 else st.1 ++ [o]
  (ks, st.2 ++ [posOf o ks])

/-- The double loop of lines 201-205, iterating `offsetStep` over a sequence
of offsets. -/
def foldTable (os : List (Nat × Nat)) (st : List (Nat × Nat) × List Nat) :
    List (Nat × Nat) × List Nat :=
  match os with
  | [] => st
  | o :: t => foldTable t (offsetStep st o)

/-- The offset of each pair of lines 201-203, in iteration order. -/
def offsetSeq (h w : Nat) : List (Nat × Nat) :=
  (allPairs h w).map (fun p => offsetOf p.1 p.2)

/-- Lines 197-209 of `Attention.__init__`: the insertion-ordered key list of
`attention_offsets`, together with the flat index list `idxs`. -/
def buildOffsets (h w : Nat) : List (Nat × Nat) × List Nat :=
  foldTable (offsetSeq h w) ([], [])

/-- Lines 208-209: `attention_bias_idxs` is `idxs` viewed as an `N × N`
matrix, `N = h * w`, row-major. -/
def attentionBiasIdx (h w : Nat) (i j : Nat) : Nat :=
  (buildOffsets h w).2.getD (i * (h * w) + j) 0

/-- Line 228 / 217: `attention_biases[:, attention_bias_idxs]` — the expanded
per-head `N × N` bias matrix. -/
def expandedBias (biases : Nat → Nat → ℚ) (h w : Nat) : Nat → Nat → Nat → ℚ :=
  fun hd i j => biases hd (attentionBiasIdx h w i j)

/-- The key-list part of the fold on its own (it does not depend on `idxs`). -/
def foldKeys (os : List (Nat × Nat)) (ks : List (Nat × Nat)) :
    List (Nat × Nat) :=
  match os with
  | [] => ks
  | o :: t => foldKeys t (if o ∈ ks then ks else ks ++ [o])

theorem foldTable_fst (os : List (Nat × Nat))
    (st : List (Nat × Nat) × List Nat) :
    (foldTable os st).1 = foldKeys os st.1 := by
  induction os generalizing st with
  | nil => rfl
  | cons o t ih => rw [foldTable, foldKeys, ih]; rfl

theorem foldKeys_sub (os ks : List (Nat × Nat)) :
    ∃ ext, foldKeys os ks = ks ++ ext := by
  induction os generalizing ks with
  | nil => exact ⟨[], by simp [foldKeys]⟩
  | cons o t ih =>
    rw [foldKeys]
    by_cases h : o ∈ ks
    · simpa [h] using ih ks
    · obtain ⟨ext, he⟩ := ih (ks ++ [o])
      refine ⟨[o] ++ ext, ?_⟩
      rw [if_neg h, he, List.append_assoc]

theorem mem_foldKeys (os ks : List (Nat × Nat)) (a : Nat × Nat) :
    a ∈ foldKeys os ks ↔ a ∈ ks ∨ a ∈ os := by
  induction os generalizing ks with
  | nil => simp [foldKeys]
  | cons o t ih =>
    rw [foldKeys]
    by_cases h : o ∈ ks
    · rw [if_pos h, ih]
      constructor
      · rintro (hk | ht)
        · exact Or.inl hk
        · exact Or.inr (List.mem_cons_of_mem _ ht)
      · rintro (hk | ho)
        · exact Or.inl hk
        · rcases List.mem_cons.mp ho with rfl | ht
          · exact Or.inl h
          · exact Or.inr ht
    · rw [if_neg h, ih]
      simp only [List.mem_append, List.mem_singleton, List.mem_cons]
      tauto

theorem nodup_foldKeys (os ks : List (Nat × Nat)) (hk : ks.Nodup) :
    (foldKeys os ks).Nodup := by
  induction os generalizing ks with
  | nil => exact hk
  | cons o t ih =>
    rw [foldKeys]
    by_cases h : o ∈ ks
    · rw [if_pos h]; exact ih ks hk
    · rw [if_neg h]
      refine ih _ ?_
      simp [List.nodup_append, hk, h]

theorem foldTable_snd (os : List (Nat × Nat))
    (st : List (Nat × Nat) × List Nat) :
    (foldTable os st).2
      = st.2 ++ os.map (fun o => posOf o (foldKeys os st.1)) := by
  induction os generalizing st with
  | nil => simp [foldTable]
  | cons o t ih =>
    rw [foldTable, ih]
    have hks : (offsetStep st o).1 = if o ∈ st.1 then st.1 else st.1 ++ [o] :=
      rfl
    have hmem : o ∈ (offsetStep st o).1 := by
      rw [hks]
      by_cases h : o ∈ st.1
      · rw [if_pos h]; exact h
      · rw [if_neg h]; exact List.mem_append_right _ (List.mem_singleton_self o)
    obtain ⟨ext, hext⟩ := foldKeys_sub t (offsetStep st o).1
    have hkeys : foldKeys (o :: t) st.1 = foldKeys t (offsetStep st o).1 := by
      rw [foldKeys, hks]
    have hstable : posOf o (foldKeys (o :: t) st.1)
        = posOf o ((offsetStep st o).1) := by
      rw [hkeys, hext]
      exact posOf_append_of_mem ext hmem
    have hmap : ∀ x ∈ t, posOf x (foldKeys t (offsetStep st o).1)
        = posOf x (foldKeys (o :: t) st.1) := by
      intro x _
      rw [hkeys]
    rw [List.map_congr_left hmap]
    have hsnd : (offsetStep st o).2 = st.2 ++ [posOf o ((offsetStep st o).1)] :=
      rfl
    rw [hsnd, List.map_cons, hstable, List.append_assoc]
    rfl

theorem mem_gridPoints (h w : Nat) (p : Nat × Nat) :
    p ∈ gridPoints h w ↔ p.1 < h ∧ p.2 < w := by
  constructor
  · intro hp
    obtain ⟨r, hr, hp2⟩ := List.mem_flatMap.mp hp
    obtain ⟨c, hc, rfl⟩ := List.mem_map.mp hp2
    exact ⟨List.mem_range.mp hr, List.mem_range.mp hc⟩
  · rintro ⟨h1, h2⟩
    refine List.mem_flatMap.mpr ⟨p.1, List.mem_range.mpr h1, ?_⟩
    exact List.mem_map.mpr ⟨p.2, List.mem_range.mpr h2, rfl⟩

theorem mem_allPairs (h w : Nat) (q : (Nat × Nat) × (Nat × Nat)) :
    q ∈ allPairs h w ↔ q.1 ∈ gridPoints h w ∧ q.2 ∈ gridPoints h w := by
  constructor
  · intro hq
    obtain ⟨p1, hp1, hq2⟩ := List.mem_flatMap.mp hq
    obtain ⟨p2, hp2, rfl⟩ := List.mem_map.mp hq2
    exact ⟨hp1, hp2⟩
  · rintro ⟨h1, h2⟩
    exact List.mem_flatMap.mpr ⟨q.1, h1, List.mem_map.mpr ⟨q.2, h2, rfl⟩⟩

theorem mem_offsetSeq (w : Nat) (a : Nat × Nat) :
    a ∈ offsetSeq w w ↔ a.1 < w ∧ a.2 < w := by
  rw [offsetSeq]
  constructor
  · intro ha
    obtain ⟨q, hq, rfl⟩ := List.mem_map.mp ha
    obtain ⟨h1, h2⟩ := (mem_allPairs w w q).mp hq
    rw [mem_gridPoints] at h1 h2
    unfold offsetOf
    constructor
    · simp only []
      omega
    · simp only []
      omega
  · rintro ⟨h1, h2⟩
    refine List.mem_map.mpr ⟨((a.1, a.2), (0, 0)), ?_, ?_⟩
    · rw [mem_allPairs]
      constructor
      · rw [mem_gridPoints]; exact ⟨h1, h2⟩
      · rw [mem_gridPoints]; exact ⟨Nat.pos_of_ne_zero (by omega), Nat.pos_of_ne_zero (by omega)⟩
    · unfold offsetOf
      simp

/-- C4: for every window size `w`, the relative-offset table built for
resolution `(w, w)` has exactly `w * w` buckets; the set of bucket keys is
exactly the set of achievable `(|dRow|, |dCol|)` pairs of the `w × w` grid,
and each entry of the flat index list is the first-seen position of the
offset of the corresponding `(point, point)` pair in row-major iteration
order.  (The construction is a pure function of `w`, so repeated
construction trivially yields the identical table.) -/
theorem C4_offset_table (w : Nat) :
    (buildOffsets w w).1.length = w * w ∧
    (buildOffsets w w).1.toFinset = Finset.range w ×ˢ Finset.range w ∧
    (buildOffsets w w).2
      = (allPairs w w).map (fun p => posOf (offsetOf p.1 p.2) (buildOffsets w w).1) := by
  have hfst : (buildOffsets w w).1 = foldKeys (offsetSeq w w) [] :=
    foldTable_fst _ _
  have hnd : (buildOffsets w w).1.Nodup := by
    rw [hfst]; exact nodup_foldKeys _ _ List.nodup_nil
  have hmem : ∀ a, a ∈ (buildOffsets w w).1 ↔ a.1 < w ∧ a.2 < w := by
    intro a
    rw [hfst, mem_foldKeys, List.mem_nil_iff, false_or, mem_offsetSeq]
  have htf : (buildOffsets w w).1.toFinset = Finset.range w ×ˢ Finset.range w := by
    ext a
    rw [List.mem_toFinset, hmem, Finset.mem_product, Finset.mem_range,
      Finset.mem_range]
  refine ⟨?_, htf, ?_⟩
  · have hcard : (buildOffsets w w).1.toFinset.card = (buildOffsets w w).1.length :=
      List.toFinset_card_of_nodup hnd
    rw [← hcard, htf, Finset.card_product, Finset.card_range]
  · have hsnd := foldTable_snd (offsetSeq w w) ([], [])
    rw [buildOffsets, hsnd, List.nil_append, foldTable_fst]
    rw [offsetSeq, List.map_map]
    rfl

theorem gridPoints_length (h w : Nat) : (gridPoints h w).length = h * w := by
  unfold gridPoints
  induction h with
  | zero => simp
  | succ n ih =>
    rw [List.range_succ, List.flatMap_append, List.length_append, ih]
    simp [Nat.succ_mul]

/-- Row-major indexing into the pairwise product structure
`l.flatMap (fun a => l'.map (f a))`. -/
theorem flatMap_map_getElem? {A B C : Type} (l : List A) (l' : List B)
    (f : A → B → C) (i j : Nat) (hi : i < l.length) (hj : j < l'.length) :
    (l.flatMap fun a => l'.map (f a))[i * l'.length + j]? = some (f l[i] l'[j]) := by
  induction l generalizing i with
  | nil => exact absurd hi (by simp)
  | cons a t ih =>
    rw [List.flatMap_cons]
    match i with
    | 0 =>
      rw [Nat.zero_mul, Nat.zero_add]
      rw [List.getElem?_append_left (by rw [List.length_map]; exact hj)]
      rw [List.getElem?_map, List.getElem?_eq_getElem hj]
      rfl
    | i + 1 =>
      have he : (i + 1) * l'.length + j = l'.length + (i * l'.length + j) := by
        ring
      rw [he, List.getElem?_append_right (by rw [List.length_map]; omega)]
      rw [List.length_map]
      have he2 : l'.length + (i * l'.length + j) - l'.length = i * l'.length + j := by
        omega
      rw [he2, ih i (Nat.lt_of_succ_lt_succ hi)]
      rfl

theorem allPairs_getElem? (h w : Nat) (i j : Nat)
    (hi : i < (gridPoints h w).length) (hj : j < (gridPoints h w).length) :
    (allPairs h w)[i * (gridPoints h w).length + j]?
      = some ((gridPoints h w)[i], (gridPoints h w)[j]) :=
  flatMap_map_getElem? (gridPoints h w) (gridPoints h w) Prod.mk i j hi hj

/-- Each entry of the `N × N` buffer `attention_bias_idxs` is the first-seen
bucket position of the offset of the corresponding pair of grid points. -/
theorem attentionBiasIdx_eq (h w : Nat) (i j : Nat)
    (hi : i < (gridPoints h w).length) (hj : j < (gridPoints h w).length) :
    attentionBiasIdx h w i j
      = posOf (offsetOf (gridPoints h w)[i] (gridPoints h w)[j])
          (buildOffsets h w).1 := by
  have hmap : (buildOffsets h w).2
      = (allPairs h w).map (fun p => posOf (offsetOf p.1 p.2) (buildOffsets h w).1) := by
    have hsnd := foldTable_snd (offsetSeq h w) ([], [])
    rw [buildOffsets, hsnd, List.nil_append, foldTable_fst]
    rw [offsetSeq, List.map_map]
    rfl
  rw [attentionBiasIdx, ← gridPoints_length h w, hmap]
  rw [List.getD_eq_getElem?_getD, List.getElem?_map,
    allPairs_getElem? h w i j hi hj]
  rfl

theorem offsetOf_symm (p q : Nat × Nat) : offsetOf p q = offsetOf q p := by
  unfold offsetOf
  rw [← Int.natAbs_neg ((p.1 : Int) - q.1), ← Int.natAbs_neg ((p.2 : Int) - q.2),
    neg_sub, neg_sub]

theorem offsetOf_self (p : Nat × Nat) : offsetOf p p = (0, 0) := by
  unfold offsetOf
  rw [sub_self, sub_self]
  rfl

theorem gridPoints_head (w : Nat) (hw : 0 < w) :
    ∃ r, gridPoints w w = (0, 0) :: r := by
  obtain ⟨n, rfl⟩ := Nat.exists_eq_succ_of_ne_zero (Nat.pos_iff_ne_zero.mp hw)
  rw [gridPoints, List.range_succ_eq_map, List.flatMap_cons]
  rw [List.map_cons, List.cons_append]
  exact ⟨_, rfl⟩

theorem offsetSeq_head (w : Nat) (hw : 0 < w) :
    ∃ r, offsetSeq w w = (0, 0) :: r := by
  obtain ⟨r, hg⟩ := gridPoints_head w hw
  rw [offsetSeq, allPairs, hg, List.flatMap_cons, List.map_cons,
    List.cons_append, List.map_cons, offsetOf_self]
  exact ⟨_, rfl⟩

theorem buildOffsets_keys_head (w : Nat) (hw : 0 < w) :
    ∃ r, (buildOffsets w w).1 = (0, 0) :: r := by
  obtain ⟨r, hs⟩ := offsetSeq_head w hw
  rw [buildOffsets, foldTable_fst, hs, foldKeys]
  rw [if_neg (List.not_mem_nil _), List.nil_append]
  obtain ⟨ext, hext⟩ := foldKeys_sub r [(0, 0)]
  rw [hext]
  exact ⟨ext, rfl⟩

/-- C10: the `N × N` bias-index buffer built for a `w × w` window is
symmetric, every diagonal entry is bucket `0` (the `(0,0)` offset, first
seen), and hence the expanded per-head bias matrix is a symmetric matrix with
constant diagonal. -/
theorem C10_biasIdx_symm_diag (w i j : Nat) (hw : 0 < w)
    (hi : i < w * w) (hj : j < w * w) :
    attentionBiasIdx w w i j = attentionBiasIdx w w j i ∧
    attentionBiasIdx w w i i = 0 ∧
    (∀ (biases : Nat → Nat → ℚ) (hd : Nat),
      expandedBias biases w w hd i j = expandedBias biases w w hd j i ∧
      expandedBias biases w w hd i i = biases hd 0) := by
  have hi' : i < (gridPoints w w).length := by rw [gridPoints_length]; exact hi
  have hj' : j < (gridPoints w w).length := by rw [gridPoints_length]; exact hj
  have hsym : attentionBiasIdx w w i j = attentionBiasIdx w w j i := by
    rw [attentionBiasIdx_eq w w i j hi' hj', attentionBiasIdx_eq w w j i hj' hi',
      offsetOf_symm]
  have hdiag : attentionBiasIdx w w i i = 0 := by
    rw [attentionBiasIdx_eq w w i i hi' hi', offsetOf_self]
    obtain ⟨r, hk⟩ := buildOffsets_keys_head w hw
    rw [hk]
    exact posOf_cons_self _ _
  exact ⟨hsym, hdiag, fun biases hd =>
    ⟨by rw [expandedBias, expandedBias, hsym],
     by rw [expandedBias, hdiag]⟩⟩

/-- Concrete instance of C10 at `w = 2`, `i = 1`, `j = 2`. -/
theorem C10_biasIdx_symm_diag_witness :
    (0 : Nat) < 2 ∧ (1 : Nat) < 2 * 2 ∧ (2 : Nat) < 2 * 2 ∧
    attentionBiasIdx 2 2 1 2 = attentionBiasIdx 2 2 2 1 ∧
    attentionBiasIdx 2 2 1 1 = 0 :=
  ⟨by decide, by decide, by decide,
    (C10_biasIdx_symm_diag 2 1 2 (by decide) (by decide) (by decide)).1,
    (C10_biasIdx_symm_diag 2 1 2 (by decide) (by decide) (by decide)).2.1⟩

/-! ## Train/eval bias cache (`Attention.train`, lines 211-217, and
`Attention.forward`, lines 227-228) -/

/-- The mode-dependent state of an `Attention` module: the learned bias
parameter `attention_biases` (per head, per bucket), the window resolution
(fixing `attention_bias_idxs`), the optional cached expansion `ab`, and the
`training` flag maintained by `Module.train`. -/
structure AttentionState where
  biases : Nat → Nat → ℚ
  res : Nat × Nat
  ab : Option (Nat → Nat → Nat → ℚ)
  training : Bool

/-- The expansion `attention_biases[:, attention_bias_idxs]` for the state. -/
def stateExpandedBias (s : AttentionState) : Nat → Nat → Nat → ℚ :=
  fun hd i j => s.biases hd (attentionBiasIdx s.res.1 s.res.2 i j)

/-- Lines 211-217, `Attention.train(mode)`: `super().train(mode)` sets the
`training` flag; then `if mode and hasattr(self, ab): del self.ab` —
otherwise (including `train(True)` with no cache present) `self.ab` is set to
the expansion. -/
def attnTrain (mode : Bool) (s : AttentionState) : AttentionState :=
  if mode ∧ s.ab.isSome then
    { s with training := mode, ab := none }
  else
    { s with training := mode, ab := some (stateExpandedBias s) }

/-- Line 228: the bias matrix `Attention.forward` adds to the scaled dot
products — recomputed from the parameter when `self.training`, the cached
`self.ab` otherwise (`none` models the `AttributeError` of reading a missing
cache). -/
def usedBias (s : AttentionState) : Option (Nat → Nat → Nat → ℚ) :=
  if s.training then some (stateExpandedBias s) else s.ab

/-- Lines 227-229 up to the bias addition: `(q @ k.transpose(-2,-1)) *
self.scale + bias`.  `qk` abstracts the scaled dot products, which are a pure
function of the input and the projection parameters and do not depend on the
training flag (nothing else in `Attention.forward` branches on mode). -/
def attnScoresWith (qk : Nat → Nat → Nat → Nat → ℚ) (scale : ℚ)
    (s : AttentionState) : Option (Nat → Nat → Nat → Nat → ℚ) :=
  (usedBias s).map (fun ab => fun b hd i j => qk b hd i j * scale + ab hd i j)

/-- C5: for the same `attention_biases` parameter values, the bias matrix the
forward pass uses in training mode (recomputed) and the cached matrix used in
evaluation mode (stored when `train(False)` was last entered) are identical,
and consequently the attention scores — hence the whole forward output — are
identical; the eval-mode cache never changes the numerical result. -/
theorem C5_bias_cache_consistent (s : AttentionState) :
    usedBias (attnTrain false s) = some (stateExpandedBias s) ∧
    usedBias { s with training := true } = some (stateExpandedBias s) ∧
    (∀ (qk : Nat → Nat → Nat → Nat → ℚ) (scale : ℚ),
      attnScoresWith qk scale (attnTrain false s)
        = attnScoresWith qk scale { s with training := true }) := by
  have h1 : usedBias (attnTrain false s) = some (stateExpandedBias s) := by
    rw [attnTrain, if_neg (by simp)]
    rw [usedBias]
    rfl
  have h2 : usedBias { s with training := true } = some (stateExpandedBias s) := by
    rw [usedBias, if_pos rfl]
    rfl
  exact ⟨h1, h2, fun qk scale => by rw [attnScoresWith, attnScoresWith, h1, h2]⟩

/-! ## Layer-wise lr decay (`TinyViT.set_layer_lr_decay`, lines 403-420) -/

/-- Line 406: `lr_scales = [decay_rate ** (depth - i - 1) for i in range(depth)]`. -/
def lrScales (decay : ℚ) (depth : Nat) : List ℚ :=
  (List.range depth).map (fun i => decay ^ (depth - i - 1))

/-- The per-stage tag targets: one scale per block, and the optional
downsample scale. -/
structure StageTags where
  blockTags : List ℚ
  downTag : Option ℚ

/-- Lines 413-417, one stage of the loop: each block receives `lr_scales[i]`
with `i` incrementing once per block, and the downsample (when present)
receives `lr_scales[i-1]` — the scale of the block just tagged. -/
def tagStage (ls : List ℚ) (i : Nat) (d : Nat) (hasDown : Bool) : StageTags :=
  { blockTags := (List.range d).map (fun j => ls.getD (i + j) 0)
    downTag := if hasDown then some (ls.getD (i + d - 1) 0) else none }

/-- Lines 413-417, the loop over the stages, threading the block counter. -/
def tagStages (ls : List ℚ) (i : Nat) : List (Nat × Bool) → List StageTags
  | [] => []
  | (d, hd) :: rest => tagStage ls i d hd :: tagStages ls (i + d) rest

/-- The tags assigned by `set_layer_lr_decay`. -/
structure ModelTags where
  stemTag : ℚ
  stages : List StageTags
  headTag : ℚ

/-- Lines 403-420 of `TinyViT.set_layer_lr_decay`, over a model skeleton given
as a list of stages `(depth, has-downsample)`: the stem (`patch_embed`)
receives `lr_scales[0]`, the stages are walked in order, and `norm_head` and
`head` receive `lr_scales[-1]` (the last element, index `total - 1`). -/
def setLayerLrDecay (decay : ℚ) (stages : List (Nat × Bool)) : ModelTags :=
  let depth := (stages.map Prod.fst).sum
  let ls := lrScales decay depth
  { stemTag := ls.getD 0 0
    stages := tagStages ls 0 stages
    headTag := ls.getD (depth - 1) 0 }

theorem lrScales_getD (decay : ℚ) (depth k : Nat) (hk : k < depth) :
    (lrScales decay depth).getD k 0 = decay ^ (depth - k - 1) := by
  rw [lrScales, List.getD_eq_getElem?_getD, List.getElem?_map,
    List.getElem?_range hk]
  rfl

theorem tagStages_getD (ls : List ℚ) (stages : List (Nat × Bool))
    (i s : Nat) (hs : s < stages.length) :
    (tagStages ls i stages).getD s ⟨[], none⟩
      = tagStage ls (i + ((stages.take s).map Prod.fst).sum)
          (stages.getD s (0, false)).1 (stages.getD s (0, false)).2 := by
  induction stages generalizing i s with
  | nil => exact absurd hs (by simp)
  | cons st rest ih =>
    match s with
    | 0 => simp [tagStages]
    | s + 1 =>
      rw [tagStages]
      have hs' : s < rest.length := Nat.lt_of_succ_lt_succ hs
      have := ih (i + st.1) s hs'
      simp only [List.getD_cons_succ, List.take_succ_cons, List.map_cons,
        List.sum_cons]
      rw [this]
      ring_nf

theorem take_sum_add_lt (depths : List Nat) (s j : Nat)
    (hs : s < depths.length) (hj : j < depths.getD s 0) :
    ((depths.take s).sum + j) < depths.sum := by
  induction depths generalizing s with
  | nil => exact absurd hs (by simp)
  | cons d rest ih =>
    match s with
    | 0 =>
      simp only [List.take_zero, List.sum_nil, Nat.zero_add, List.sum_cons]
      simp only [List.getD_cons_zero] at hj
      omega
    | s + 1 =>
      have hs' : s < rest.length := Nat.lt_of_succ_lt_succ hs
      simp only [List.getD_cons_succ] at hj
      have := ih s hs' hj
      simp only [List.take_succ_cons, List.sum_cons]
      omega

/-- C7: `set_layer_lr_decay` gives every parameter of the block at global
block position `p` (counting once per block across all stages, in stage
order) the scale `decay ^ (total - p - 1)`; the stem receives the first block
scale `decay ^ (total - 1)`, the head receives the last block scale
`decay ^ 0 = 1`, and the downsample of a stage receives the scale of the last
block of its stage. -/
theorem C7_lr_decay_schedule (decay : ℚ) (stages : List (Nat × Bool))
    (s j : Nat) (hs : s < stages.length)
    (hj : j < (stages.getD s (0, false)).1) :
    ((setLayerLrDecay decay stages).stages.getD s ⟨[], none⟩).blockTags.getD j 0
      = decay ^ ((stages.map Prod.fst).sum
          - (((stages.take s).map Prod.fst).sum + j) - 1) ∧
    (setLayerLrDecay decay stages).stemTag
      = decay ^ ((stages.map Prod.fst).sum - 1) ∧
    (setLayerLrDecay decay stages).headTag = 1 ∧
    ((stages.getD s (0, false)).2 = true →
      ((setLayerLrDecay decay stages).stages.getD s ⟨[], none⟩).downTag
        = some (decay ^ ((stages.map Prod.fst).sum
            - (((stages.take s).map Prod.fst).sum
               + ((stages.getD s (0, false)).1 - 1)) - 1))) := by
  set total := (stages.map Prod.fst).sum with htotal
  have hmapgetD : ∀ s, (stages.map Prod.fst).getD s 0 = (stages.getD s (0, false)).1 := by
    intro t
    rw [List.getD_eq_getElem?_getD, List.getElem?_map, List.getD_eq_getElem?_getD]
    match h : stages[t]? with
    | none => rfl
    | some v => rfl
  have hlen : (stages.map Prod.fst).length = stages.length := List.length_map _ _
  have hjm : j < (stages.map Prod.fst).getD s 0 := by rw [hmapgetD]; exact hj
  have hsm : s < (stages.map Prod.fst).length := by rw [hlen]; exact hs
  have hblt : ((stages.map Prod.fst).take s).sum + j < total :=
    take_sum_add_lt (stages.map Prod.fst) s j hsm hjm
  have htake : ((stages.map Prod.fst).take s).sum = ((stages.take s).map Prod.fst).sum := by
    rw [List.map_take]
  have hpos : 0 < total := by omega
  have hstg := tagStages_getD (lrScales decay total) stages 0 s hs
  have hblock :
      ((setLayerLrDecay decay stages).stages.getD s ⟨[], none⟩).blockTags.getD j 0
        = decay ^ (total - (((stages.take s).map Prod.fst).sum + j) - 1) := by
    rw [setLayerLrDecay]
    simp only []
    rw [hstg, tagStage]
    simp only []
    rw [List.getD_eq_getElem?_getD, List.getElem?_map, List.getElem?_range hj,
      Option.map_some', Option.getD_some, Nat.zero_add]
    rw [lrScales_getD decay total _ (by omega)]
  refine ⟨hblock, ?_, ?_, ?_⟩
  · rw [setLayerLrDecay]
    simp only []
    rw [lrScales_getD decay total 0 hpos, Nat.sub_zero]
  · rw [setLayerLrDecay]
    simp only []
    rw [lrScales_getD decay total (total - 1) (by omega)]
    have : total - (total - 1) - 1 = 0 := by omega
    rw [this, pow_zero]
  · intro hdown
    have hd : 0 < (stages.getD s (0, false)).1 := by omega
    have hjd : (stages.getD s (0, false)).1 - 1 < (stages.map Prod.fst).getD s 0 := by
      rw [hmapgetD]; omega
    have hblt2 := take_sum_add_lt (stages.map Prod.fst) s _ hsm hjd
    rw [setLayerLrDecay]
    simp only []
    rw [hstg, tagStage]
    simp only []
    rw [if_pos hdown, Nat.zero_add]
    have harg : ((stages.take s).map Prod.fst).sum + (stages.getD s (0, false)).1 - 1
        = ((stages.take s).map Prod.fst).sum + ((stages.getD s (0, false)).1 - 1) := by
      omega
    rw [harg, lrScales_getD decay total _ (by omega)]

/-- Concrete instance of C7 on the default skeleton `depths = [2,2,6,2]`
(downsample on all but the last stage) with `decay = 1/2`: block 3 of stage 2
sits at global position 7 of 12, so its scale is `(1/2)^4`; the stem gets
`(1/2)^11`, the head gets `1`, and the stage-2 downsample gets the scale of
block 5 of stage 2, `(1/2)^2`. -/
theorem C7_lr_decay_schedule_witness :
    ((setLayerLrDecay (1/2) [(2, true), (2, true), (6, true), (2, false)]).stages.getD
        2 ⟨[], none⟩).blockTags.getD 3 0 = (1/2 : ℚ) ^ 4 ∧
    (setLayerLrDecay (1/2) [(2, true), (2, true), (6, true), (2, false)]).stemTag
      = (1/2 : ℚ) ^ 11 ∧
    (setLayerLrDecay (1/2) [(2, true), (2, true), (6, true), (2, false)]).headTag = 1 ∧
    ((setLayerLrDecay (1/2) [(2, true), (2, true), (6, true), (2, false)]).stages.getD
        2 ⟨[], none⟩).downTag = some ((1/2 : ℚ) ^ 2) := by
  have h := C7_lr_decay_schedule (1/2) [(2, true), (2, true), (6, true), (2, false)]
    2 3 (by decide) (by decide)
  exact ⟨h.1, h.2.1, h.2.2.1, h.2.2.2 (by decide)⟩

/-! ## Shape-level semantics of the network -/

/-- A tensor shape: channels-first spatial `(B, C, H, W)` or a Token Grid
`(B, L, C)`. -/
inductive TShape where
  | spatial (B C H W : Nat)
  | tokens (B L C : Nat)
deriving DecidableEq

/-- Output shape of `torch.nn.Conv2d(inC, outC, k, stride, pad)` (used via
`Conv2d_BN`, lines 10-19; batch norm preserves the shape): requires a
matching channel count and a kernel that fits the padded input, and floors
the strided output extent. -/
def conv2dShape (inC outC k stride pad : Nat) : TShape → Option TShape
  | .spatial B C H W =>
    if C = inC ∧ 0 < stride ∧ k ≤ H + 2 * pad ∧ k ≤ W + 2 * pad then
      some (.spatial B outC ((H + 2 * pad - k) / stride + 1)
        ((W + 2 * pad - k) / stride + 1))
    else none
  | _ => none

/-- Lines 48-65, `PatchEmbed`: `Conv2d_BN(in, n/2, 3, 2, 1)` then
`Conv2d_BN(n/2, n, 3, 2, 1)`. -/
def patchEmbedShape (inChans embedDim : Nat) (s : TShape) : Option TShape :=
  (conv2dShape inChans (embedDim / 2) 3 2 1 s).bind
    (conv2dShape (embedDim / 2) embedDim 3 2 1)

/-- Lines 68-100, `MBConv` as used by `ConvLayer` (`in = out = dim`, hidden
width `int(dim * 4.0) = 4 * dim`): 1x1 expand, 3x3 depthwise, 1x1 contract;
the residual add `x += shortcut` (line 97) requires the output shape to equal
the input shape. -/
def mbconvShape (dim : Nat) (s : TShape) : Option TShape :=
  (((conv2dShape dim (4 * dim) 1 1 0 s).bind
      (conv2dShape (4 * dim) (4 * dim) 3 1 1)).bind
    (conv2dShape (4 * dim) dim 1 1 0)).bind
    (fun s4 => if s4 = s then some s4 else none)

/-- Lines 112-114 of `PatchMerging.__init__`: stride 1 for output widths in
`(320, 448, 576)`, else stride 2. -/
def patchMergingStride (outDim : Nat) : Nat :=
  if outDim = 320 ∨ outDim = 448 ∨ outDim = 576 then 1 else 2

/-- Line 128, `x.flatten(2).transpose(1, 2)`: spatial to Token Grid. -/
def toTokens : TShape → TShape
  | .spatial B C H W => .tokens B (H * W) C
  | t => t

/-- Lines 103-130, `PatchMerging`: a Token Grid input is first viewed as
`(B, H, W, -1)` with the declared resolution and permuted to channels-first
(lines 120-123; the view with channels preserved, and the following
`conv1` channel check, require `L = H * W`); then 1x1 conv to `outDim`,
3x3 depthwise conv with the width-dependent stride, 1x1 conv, and flatten
back to a Token Grid. -/
def patchMergingShape (res : Nat × Nat) (dim outDim : Nat) (s : TShape) :
    Option TShape :=
  let sp : Option TShape :=
    match s with
    | .tokens B L C =>
      if L = res.1 * res.2 then some (.spatial B C res.1 res.2) else none
    | sp4 => some sp4
  (((sp.bind (conv2dShape dim outDim 1 1 0)).bind
      (conv2dShape outDim outDim 3 (patchMergingStride outDim) 1)).bind
    (conv2dShape outDim outDim 1 1 0)).map toTokens

/-- Lines 255-288, `TinyViTBlock.forward` at shape level: line 258
`assert L == H * W` against the declared resolution; the window path (fast or
general), the local depthwise conv and the MLP all preserve `(B, L, C)`, and
the `LayerNorm`/`Linear` layers require `C = dim`. -/
def tinyViTBlockShape (dim : Nat) (res : Nat × Nat) : TShape → Option TShape
  | .tokens B L C =>
    if L = res.1 * res.2 ∧ C = dim then some (.tokens B L C) else none
  | _ => none

/-- A stack of `depth` identical blocks (lines 141-144 / 297-304). -/
def iterBlocks (f : TShape → Option TShape) : Nat → TShape → Option TShape
  | 0, s => some s
  | n + 1, s => (f s).bind (iterBlocks f n)

/-- Line 362 of `TinyViT.__init__`: the declared input resolution of stage
`i` is `patches_resolution // 2 ** (i - 1 if i == 3 else i)`. -/
def stageResolution (patches i : Nat) : Nat :=
  patches / 2 ^ (if i = 3 then i - 1 else i)

/-- The construction configuration of `TinyViT` (lines 336-341) relevant to
shapes. -/
structure TinyViTCfg where
  imgSize : Nat
  inChans : Nat
  embedDims : List Nat
  depths : List Nat
  windowSizes : List Nat

/-- Lines 359-379: stage `i` — `ConvLayer` of `MBConv` blocks when `i = 0`,
else `BasicLayer` of `TinyViTBlock`s at the declared resolution; every stage
but the last carries a `PatchMerging` to
`embed_dims[min(i + 1, len(embed_dims) - 1)]`. -/
def stageShape (cfg : TinyViTCfg) (i : Nat) (s : TShape) : Option TShape :=
  let dim := cfg.embedDims.getD i 0
  let r := stageResolution (cfg.imgSize / 4) i
  let outDim := cfg.embedDims.getD (min (i + 1) (cfg.embedDims.length - 1)) 0
  let blockF := if i = 0 then mbconvShape dim else tinyViTBlockShape dim (r, r)
  (iterBlocks blockF (cfg.depths.getD i 0) s).bind (fun s2 =>
    if i < cfg.depths.length - 1 then patchMergingShape (r, r) dim outDim s2
    else some s2)

/-- The stages in order (lines 427-428). -/
def stagesShape (cfg : TinyViTCfg) : List Nat → TShape → Option TShape
  | [], s => some s
  | i :: rest, s => (stageShape cfg i s).bind (stagesShape cfg rest)

/-- Lines 319-332, `LayerNorm2d`: elementwise over a spatial tensor whose
channel count matches the learned scale/shift vectors. -/
def layerNorm2dShape (numC : Nat) : TShape → Option TShape
  | .spatial B C H W => if C = numC then some (.spatial B C H W) else none
  | _ => none

/-- Lines 386-391, the neck: 1x1 conv from the last stage width to 256,
`LayerNorm2d`, 3x3 conv at 256, `LayerNorm2d`. -/
def neckShape (lastDim : Nat) (s : TShape) : Option TShape :=
  ((conv2dShape lastDim 256 1 1 0 s).bind (layerNorm2dShape 256)).bind
    (fun s2 => (conv2dShape 256 256 3 1 1 s2).bind (layerNorm2dShape 256))

/-- Lines 429-430: `B, _, C = x.size()` requires a Token Grid;
`x.view(B, 64, 64, C)` requires the element counts to match, and the permute
yields channels-first `(B, C, 64, 64)`. -/
def view6464 : TShape → Option TShape
  | .tokens B L C =>
    if B * L * C = B * (64 * 64) * C then some (.spatial B C 64 64) else none
  | _ => none

/-- Lines 425-433, `TinyViT.forward_features` (= `forward`): patch embed,
stages in order, the hard-coded `64 × 64` view, and the neck. -/
def forwardFeaturesShape (cfg : TinyViTCfg) (s : TShape) : Option TShape :=
  ((patchEmbedShape cfg.inChans (cfg.embedDims.getD 0 0) s).bind
    (stagesShape cfg (List.range cfg.depths.length))).bind
    (fun s2 => (view6464 s2).bind
      (neckShape (cfg.embedDims.getD (cfg.embedDims.length - 1) 0)))

/-- The default constructor arguments of `TinyViT` (line 336-338). -/
def default224Cfg : TinyViTCfg :=
  ⟨224, 3, [96, 192, 384, 768], [2, 2, 6, 2], [7, 7, 14, 7]⟩

/-- The SAM TinyViT-5M configuration: image size 1024 and a last-stage width
in the stride-1 set of `PatchMerging`. -/
def samCfg : TinyViTCfg :=
  ⟨1024, 3, [64, 128, 160, 320], [2, 2, 6, 2], [7, 7, 14, 7]⟩

/-- C2, counterexample: with the default configuration (image size 224,
widths `[96, 192, 384, 768]`), the forward pass on a `(2, 3, 224, 224)` batch
does not return a `(2, 256, 64, 64)` map — it fails: the stage-2 downsample
(width 768, not in the stride-1 set) shrinks the grid to `7 × 7` while stage 3
declares `14 × 14`, so the `assert L == H * W` of `TinyViTBlock.forward`
fires. -/
theorem C2_default224_fails :
    forwardFeaturesShape default224Cfg (TShape.spatial 2 3 224 224) = none := by
  decide

/-- C2, amended: for the SAM configuration (image size 1024, widths
`[64, 128, 160, 320]`, whose last width lies in the stride-1 set of
`PatchMerging`), the forward pass on a `(2, 3, 1024, 1024)` batch yields a
`(2, 256, 64, 64)` Spatial Tensor — a fixed 256-channel `64 × 64` map. -/
theorem C2_sam_output_shape :
    forwardFeaturesShape samCfg (TShape.spatial 2 3 1024 1024)
      = some (TShape.spatial 2 256 64 64) := by
  decide

/-- The resolution schedule as the claim words it: the resolution of stage
`i` is the base resolution halved `i` times, except the last stage
(`i = K - 1`), which reuses the resolution of stage `K - 2`.  Stated from the
spec, for comparison with the source formula `stageResolution`. -/
def claimedStageResolution (K patches i : Nat) : Nat :=
  if i = K - 1 then patches / 2 ^ (K - 2) else patches / 2 ^ i

/-- C8, counterexample: the source special-cases stage index 3, not the last
stage.  With `K = 2` stages and base resolution 56, the last stage (index 1)
is declared at `56 / 2 = 28`, not at the prior stage resolution 56 that the
claim prescribes. -/
theorem C8_lastStage_counterexample :
    stageResolution 56 1 = 28 ∧ claimedStageResolution 2 56 1 = 56 ∧
    stageResolution 56 1 ≠ claimedStageResolution 2 56 1 := by
  decide

/-- C8, amended: the declared input resolution of stage `i` is the base
resolution halved `i` times, except stage index 3 specifically (not the last
stage in general), which is halved only twice; in particular for image size
224 and 4 stages the declared resolutions are 56, 28, 14, 14, the last stage
reusing the resolution of the one before it. -/
theorem C8_resolution_schedule (patches i : Nat) :
    (i ≠ 3 → stageResolution patches i = patches / 2 ^ i) ∧
    stageResolution patches 3 = patches / 2 ^ 2 ∧
    (List.range 4).map (stageResolution (224 / 4)) = [56, 28, 14, 14] ∧
    stageResolution (224 / 4) 3 = stageResolution (224 / 4) 2 := by
  refine ⟨?_, by rfl, by decide, by decide⟩
  intro h
  rw [stageResolution, if_neg h]

/-- Concrete instance of C8 (amended) at `patches = 56`, `i = 2`. -/
theorem C8_resolution_schedule_witness :
    (2 : Nat) ≠ 3 ∧ stageResolution 56 2 = 56 / 2 ^ 2 :=
  ⟨by decide, (C8_resolution_schedule 56 2).1 (by decide)⟩

/-- Line 184 of `Attention.__init__`: `assert len(resolution) == 2`, then the
offset table is built from the two grid sides. -/
def attentionInitTable (resolution : List Nat) :
    Option (List (Nat × Nat) × List Nat) :=
  if resolution.length = 2 then
    some (buildOffsets (resolution.getD 0 0) (resolution.getD 1 0))
  else none

/-- Lines 255-281 of `TinyViTBlock.forward` with the attention map
abstracted: line 258 `assert L == H * W` against the declared resolution,
then the fast path (line 260-261) or the general path (lines 262-280). -/
def tinyViTBlockAttn {α : Type} (H W ws : Nat) (z : α)
    (attn : Tensor3 α → Tensor3 α) (L : Nat) (x : Tensor3 α) :
    Option (Tensor3 α) :=
  if L = H * W then
    some (if H = ws ∧ W = ws then fastPath attn x else generalPath H W ws z attn x)
  else none

/-- C9: `Attention` construction succeeds exactly when the resolution is a
2-tuple, and `TinyViTBlock.forward` succeeds exactly when the sequence length
equals the declared `H * W` — each violation fails at the point of violation,
and under the preconditions neither failure branch is reachable. -/
theorem C9_precondition_asserts {α : Type} (resolution : List Nat)
    (H W ws L : Nat) (z : α) (attn : Tensor3 α → Tensor3 α) (x : Tensor3 α) :
    ((attentionInitTable resolution).isSome ↔ resolution.length = 2) ∧
    ((tinyViTBlockAttn H W ws z attn L x).isSome ↔ L = H * W) := by
  constructor
  · rw [attentionInitTable]
    by_cases h : resolution.length = 2
    · simp [h]
    · simp [h]
  · rw [tinyViTBlockAttn]
    by_cases h : L = H * W
    · simp [h]
    · simp [h]

/-! ## Completeness check of `set_layer_lr_decay` (lines 421-423) -/

/-- The parameter-owning submodules of `TinyViT`: the stem, each stage block
and downsample, the classification head pair, and the neck (line 386). -/
inductive TVModule where
  | patchEmbed
  | layerBlock (s j : Nat)
  | layerDown (s : Nat)
  | normHead
  | headLin
  | neckMod (k : Nat)
deriving DecidableEq

/-- Lines 410-420: the traversal of `set_layer_lr_decay` applies
`_set_lr_scale` to `patch_embed`, to every block and downsample of every
layer, and to `norm_head` and `head`.  The `neck` (line 386) is never
visited, so its parameters never receive an `lr_scale` attribute. -/
def taggedByTraversal : TVModule → Bool
  | .patchEmbed => true
  | .layerBlock _ _ => true
  | .layerDown _ => true
  | .normHead => true
  | .headLin => true
  | .neckMod _ => false

/-- The value of one Python expression
`hasattr(p, lr_scale) or AssertionError(p.param_name)` of line 423: `or`
returns its first truthy operand, and a freshly constructed
`AssertionError(name)` is an ordinary truthy object — constructing it does
not raise it. -/
inductive PyVal where
  | boolVal (b : Bool)
  | assertionErrorObj (msg : String)
deriving DecidableEq

/-- Line 423, one parameter: the expression merely evaluates to a value. -/
def checkParamValue (tagged : Bool) (name : String) : PyVal :=
  if tagged then .boolVal true else .assertionErrorObj name

/-- Line 423 as executed: `self.apply` evaluates the list comprehension for
every submodule and discards the resulting list; no exception is ever raised,
so the check succeeds regardless of tagging. -/
def runCompletenessCheck (params : List (String × Bool)) : Except String Unit :=
  let _ := params.map (fun p => checkParamValue p.2 p.1)
  Except.ok ()

/-- The check the spec describes: construction fails, naming the offending
parameter, if any parameter is untagged. -/
def specCompletenessCheck (params : List (String × Bool)) : Except String Unit :=
  match params.find? (fun p => !p.2) with
  | some p => Except.error p.1
  | none => Except.ok ()

/-- A representative slice of `named_parameters()` of a default `TinyViT`, in
registration order, each with its owning submodule: stem, stage blocks and
downsamples, head, and the six neck parameters (two convolutions without
bias, two `LayerNorm2d` weight/bias pairs). -/
def defaultNamedParams : List (String × TVModule) :=
  [("patch_embed.seq.0.c.weight", .patchEmbed),
   ("patch_embed.seq.0.bn.weight", .patchEmbed),
   ("layers.0.blocks.0.conv1.c.weight", .layerBlock 0 0),
   ("layers.0.blocks.1.conv3.bn.bias", .layerBlock 0 1),
   ("layers.0.downsample.conv1.c.weight", .layerDown 0),
   ("layers.1.blocks.0.attn.attention_biases", .layerBlock 1 0),
   ("layers.1.blocks.1.mlp.fc1.weight", .layerBlock 1 1),
   ("layers.1.downsample.conv2.c.weight", .layerDown 1),
   ("layers.2.blocks.5.attn.qkv.weight", .layerBlock 2 5),
   ("layers.2.downsample.conv3.c.weight", .layerDown 2),
   ("layers.3.blocks.1.local_conv.c.weight", .layerBlock 3 1),
   ("norm_head.weight", .normHead),
   ("head.weight", .headLin),
   ("neck.0.weight", .neckMod 0),
   ("neck.1.weight", .neckMod 1),
   ("neck.1.bias", .neckMod 1),
   ("neck.2.weight", .neckMod 2),
   ("neck.3.weight", .neckMod 3),
   ("neck.3.bias", .neckMod 3)]

/-- The tagging status of the default parameter list after the traversal. -/
def defaultTaggedParams : List (String × Bool) :=
  defaultNamedParams.map (fun p => (p.1, taggedByTraversal p.2))

/-- C1 (code bug): the neck parameters are left untagged by the traversal of
`set_layer_lr_decay`, yet the line-423 check — whose per-parameter expression
builds an `AssertionError` without raising it — succeeds, so construction
completes silently with untagged parameters; the check the spec describes
would instead fail naming `neck.0.weight`. -/
theorem C1_completeness_check_never_fails :
    runCompletenessCheck defaultTaggedParams = Except.ok () ∧
    ("neck.0.weight", false) ∈ defaultTaggedParams ∧
    specCompletenessCheck defaultTaggedParams = Except.error ("neck.0.weight") := by
  refine ⟨rfl, by decide, rfl⟩

end VentiSAM
